import Mathlib

/-!
Verification development for the DPDK transmit path of
`src/vnet/vnet/devices/dpdk/device.c`: the packet replicator
(`dpdk_replicate_packet_mb`), the burst/drain engine
(`tx_burst_vector_internal`), and the per-call orchestration
(`dpdk_interface_tx`, `dpdk_interface_tx_vector`).

Modelling conventions
- `u32` ring counters (`tx_head`, `tx_tail`) are modelled as unbounded `Nat`.
  The counters are monotone and every quantity the code observes is a
  difference bounded by the ring size (far below `2^32`), so the `u32`
  representation is the abstract counter reduced mod `2^32`; the arithmetic
  performed by the code commutes with that reduction.  Explicit `i16`/`u16`
  conversions that can actually truncate are modelled bit-exactly.
- `DPDK_TX_RING_SIZE` is defined in a header outside `src/`; it is kept as a
  parameter `RING` of the definitions (the spec fixes it only to be a
  positive constant sized by the caller).
- The transmit primitive (`rte_eth_tx_burst` and its per-variant siblings)
  is an external collaborator; it is modelled as an oracle
  `prim : Nat → Nat → Nat → Int` mapping (call index, starting slot,
  number of packets offered) to the value `rv` the primitive returns.
- `rte_mbuf` data buffers live in a `Store : Nat → List Nat` mapping a
  buffer identity (`buf_addr`) to the bytes of that buffer, so that
  aliasing/decoupling statements are expressible.
- Spinlock acquisition/release (`xd->lockp`) and tracing are concurrency /
  I-O side effects with no influence on ring arithmetic; they are omitted.
-/

/-- DPDK mbuf headroom constant (`RTE_PKTMBUF_HEADROOM`, 128 bytes); defined
by DPDK outside this repository. -/
def RTE_PKTMBUF_HEADROOM : Nat := 128

/-- C conversion of an integer value to `int16_t` (two's complement wrap). -/
def i16 (x : Int) : Int :=
  if x % 65536 < 32768 then x % 65536 else x % 65536 - 65536

/-- C conversion of an integer value to `uint16_t`. -/
def u16 (x : Int) : Nat := (x % 65536).toNat

/-- Contents of every data buffer, keyed by buffer identity (`buf_addr`). -/
def Store := Nat → List Nat

/-- `memcpy(new_mb->buf_addr, pkt_mb->buf_addr, n)`: overwrite the first `n`
bytes of buffer `dst` with the first `n` bytes of buffer `src`. -/
def memcpyInto (st : Store) (dst src : Nat) (n : Nat) : Store :=
  fun j => if j = dst then (st src).take n ++ (st dst).drop n else st j

/-- Overwrite the whole contents of buffer `id` (an arbitrary mutation of
that buffer, used to state decoupling of a replica from its original). -/
def writeStore (st : Store) (id : Nat) (bytes : List Nat) : Store :=
  fun j => if j = id then bytes else st j

/-- One `rte_mbuf` segment: its buffer identity (`buf_addr`) and its
`data_len` field.  The buffer's byte contents (and hence `buf_len`) live in
the `Store`. -/
structure MbufSeg where
  buf_id : Nat
  data_len : Nat
deriving Repr, DecidableEq

/-- An `rte_mbuf` packet: leading metadata of the first segment plus the
`next`-chain of segments (the first segment included). -/
structure Mbuf where
  pkt_len : Nat
  nb_segs : Nat
  port : Nat
  segs : List MbufSeg
deriving Repr, DecidableEq

/-- The segment-copy loop of `dpdk_replicate_packet_mb` (device.c:58-108).
`n` is `nb_segs_left`, `chain` the remaining `pkt_mb` chain, `allocs` the
allocator oracle (`rte_pktmbuf_alloc` results: a fresh buffer identity, or
`none` on pool exhaustion), `acc` the new chain built so far (reversed) and
`alld` the identities allocated so far (reversed, ghost output).
Returns (new chain or `none`, final store, buffer identities freed by
`rte_pktmbuf_free(first_mb)` on the failure paths, identities allocated). -/
def replGo : Nat → List MbufSeg → List (Option Nat) → Store → List MbufSeg →
    List Nat → Option (List MbufSeg) × Store × List Nat × List Nat
  | 0, _, _, st, acc, alld => (some acc.reverse, st, [], alld.reverse)
  | _ + 1, [], _, st, acc, alld =>
      -- `pkt_mb == 0`: missing chain segment; free the partial chain.
      (none, st, acc.reverse.map (·.buf_id), alld.reverse)
  | n + 1, seg :: rest, allocs, st, acc, alld =>
      match allocs with
      | [] =>
          (none, st, acc.reverse.map (·.buf_id), alld.reverse)
      | none :: _ =>
          -- `rte_pktmbuf_alloc` returned 0: free the partial chain.
          (none, st, acc.reverse.map (·.buf_id), alld.reverse)
      | some newId :: allocs' =>
          let copy_bytes := seg.data_len + RTE_PKTMBUF_HEADROOM
          let st' := memcpyInto st newId seg.buf_id copy_bytes
          replGo n rest allocs' st' (⟨newId, seg.data_len⟩ :: acc) (newId :: alld)

/-- `dpdk_replicate_packet_mb` (device.c:46-114).  Walks `nb_segs` segments
of the chain, allocating and copying one fresh segment per original segment;
on any failure the partially built copy is freed and NULL is returned.  On
success the first new segment receives the original's `pkt_len`, `nb_segs`
and `port`.  Result: (copy and updated store, or `none`), the identities
freed on failure, and the identities allocated (ghost). -/
def dpdk_replicate_packet_mb (st : Store) (allocs : List (Option Nat))
    (b : Mbuf) : Option (Mbuf × Store) × List Nat × List Nat :=
  match replGo b.nb_segs b.segs allocs st [] [] with
  | (none, _, freed, alld) => (none, freed, alld)
  | (some newSegs, st', _, alld) =>
      match newSegs with
      | [] => (none, [], alld)   -- nb_segs = 0: `first_mb` is still NULL
      | _ =>
          (some ({ pkt_len := b.pkt_len, nb_segs := b.nb_segs,
                   port := b.port, segs := newSegs }, st'), [], alld)

/-- One packet offered to `dpdk_interface_tx`: the fields of the
`vlib_buffer_t` view and of its co-located `rte_mbuf` descriptor that the
enqueue loop reads (device.c:646-697). -/
structure TxPkt where
  /-- `b->clone_count` -/
  clone_count : Nat
  /-- the `VLIB_BUFFER_REPL_FAIL` bit of `b->flags` on entry -/
  flags_repl_fail : Bool
  /-- `vlib_buffer_length_in_chain (vm, b)` -/
  len_in_chain : Nat
  /-- `b->current_data` (an `i16`) -/
  current_data : Int
  /-- `mb->pkt_len` (u32) of the co-located descriptor -/
  mb_pkt_len : Nat
  /-- `mb->data_len` (u16) -/
  mb_data_len : Nat
  /-- `mb->data_off` (u16) -/
  mb_data_off : Nat
  /-- the buffer index `bi` -/
  bi : Nat
deriving Repr, DecidableEq

/-- Per-packet outcome of the enqueue loop body. -/
structure PktOut where
  /-- the `VLIB_BUFFER_REPL_FAIL` bit of `b->flags` after the body ran -/
  flags_repl_fail : Bool
  /-- final `mb->pkt_len` of the descriptor handed on (replica if any) -/
  mb_pkt_len : Nat
  /-- final `mb->data_len` -/
  mb_data_len : Nat
  /-- final `mb->data_off` -/
  mb_data_off : Nat
  /-- final `b->current_length` -/
  b_current_length : Nat
  /-- descriptor written into `tx_vector[i % DPDK_TX_RING_SIZE]`, `i++` -/
  appended : Bool
  /-- buffer index appended to `dm->recycle[my_cpu]` -/
  recycled : Bool
  /-- `DPDK_TX_FUNC_ERROR_REPL_FAIL` increments contributed (0 or 1) -/
  repl_fail_inc : Nat
deriving Repr, DecidableEq

/-- Body of the enqueue loop of `dpdk_interface_tx` for one packet
(device.c:646-697; the four-at-a-time loop of lines 525-645 is the same body
manually unrolled two packets per iteration for prefetching, with identical
per-packet semantics).  `replOk` is the oracle for whether
`dpdk_replicate_packet_mb` succeeds for this packet; on success the
descriptor becomes the replica, whose leading fields were copied from the
original and whose `data_off` is the allocator's default
`RTE_PKTMBUF_HEADROOM`. -/
def processPkt (p : TxPkt) (replOk : Bool) : PktOut :=
  -- replication dispatch (lines 661-673)
  let fail' := if p.clone_count ≠ 0 ∧ ¬ replOk then true else p.flags_repl_fail
  let recycled := p.clone_count ≠ 0
  let inc := if p.clone_count ≠ 0 ∧ ¬ replOk then 1 else 0
  let mbp := p.mb_pkt_len           -- replica copies pkt_len, so unchanged
  let mbd := p.mb_data_len          -- replica copies data_len of segment 1
  let mbo := if p.clone_count ≠ 0 ∧ replOk then RTE_PKTMBUF_HEADROOM
             else p.mb_data_off
  -- view reconciliation (lines 675-685)
  let delta : Int := if fail' then 0
                     else i16 ((p.len_in_chain : Int) - i16 (mbp : Int))
  let new_data_len := u16 (i16 (mbd : Int) + delta)
  let new_pkt_len := u16 (i16 (mbp : Int) + delta)
  let new_data_off := if fail' then mbo
                      else u16 ((RTE_PKTMBUF_HEADROOM : Int) + p.current_data)
  { flags_repl_fail := fail', mb_pkt_len := new_pkt_len,
    mb_data_len := new_data_len, mb_data_off := new_data_off,
    b_current_length := new_data_len,
    appended := ¬ fail', recycled := recycled, repl_fail_inc := inc }

/-- The whole enqueue loop: each packet is processed independently by the
loop body (device.c:521-697). -/
def processBatch (batch : List (TxPkt × Bool)) : List PktOut :=
  batch.map (fun x => processPkt x.1 x.2)

/-- Result of `tx_burst_vector_internal`. -/
structure BurstResult where
  /-- final `ring->tx_tail` -/
  tail : Nat
  /-- the returned count of untransmitted packets -/
  n_left : Nat
  /-- number of invocations of the transmit primitive -/
  calls : Nat
  /-- `DPDK_TX_FUNC_ERROR_BAD_RETVAL` increments -/
  bad_retval : Nat
deriving Repr, DecidableEq

/-- The retry loop of `tx_burst_vector_internal` (device.c:216-399),
specialised to the branch structure shared by every device variant: compute
the contiguous slice starting at `tx_tail`, call the primitive, and on a
wrap slice reset `n_retry` to 1 exactly when the slice was fully accepted.
Arguments after `tx_head`: fuel, `ring->tx_tail`, `n_packets`, `n_retry`,
and the primitive call index.

The C `do`-while has no fuel: it terminates because every continued
iteration has `rv ≥ 1`, so `n_packets` strictly decreases; `n_packets + 1`
units of fuel therefore cover every run in which the primitive accepts at
most what it was offered (`(u16)rv = rv` then).  A primitive answering a
positive multiple of `2^16` would make the C loop spin forever; the model
then stops at fuel exhaustion, returning the current state. -/
def txBurstLoop (prim : Nat → Nat → Nat → Int) (RING tx_head : Nat) :
    Nat → Nat → Nat → Nat → Nat → BurstResult
  | 0, tail, n_packets, _, _ => ⟨tail, n_packets, 0, 0⟩
  | fuel + 1, tail, n_packets, n_retry, k =>
      let tx_tail := tail % RING
      -- slice offered to the primitive (lines 235-263)
      let cnt := if tx_head > tx_tail then tx_head - tx_tail
                 else RING - tx_tail
      let rv := prim k tx_tail cnt
      -- wrap slice: `n_retry = (rv == DPDK_TX_RING_SIZE - tx_tail) ? 1 : 0`
      let n_retry' := if tx_head > tx_tail then n_retry
                      else if rv = ((RING - tx_tail : Nat) : Int) then 1
                      else 0
      if rv < 0 then
        -- lines 383-396: count BAD_RETVAL, return untransmitted count
        ⟨tail, n_packets, 1, 1⟩
      else
        -- lines 397-398: `tx_tail += (u16)rv; n_packets -= (u16)rv`
        let x := rv.toNat % 65536
        let tail' := tail + x
        let n' := n_packets - x
        if rv ≠ 0 ∧ n' ≠ 0 ∧ n_retry' > 0 then
          let r := txBurstLoop prim RING tx_head fuel tail' n' n_retry' (k + 1)
          ⟨r.tail, r.n_left, r.calls + 1, r.bad_retval⟩
        else ⟨tail', n', 1, 0⟩

/-- `tx_burst_vector_internal` (device.c:165-402).  `fc` is whether
`dm->flowcontrol_callback` is registered. -/
def tx_burst_vector_internal (prim : Nat → Nat → Nat → Int) (RING : Nat)
    (fc : Bool) (head tail : Nat) : BurstResult :=
  let n_packets := head - tail
  let tx_head := head % RING
  let n_retry := if fc then 0 else 255
  txBurstLoop prim RING tx_head (n_packets + 1) tail n_packets n_retry 0

/-- The transmit primitive's contract (§6 of the design): a call either
fails with a negative code or consumes a prefix of the offered slice. -/
def WellBehaved (prim : Nat → Nat → Nat → Int) : Prop :=
  ∀ k slot cnt, prim k slot cnt ≤ (cnt : Int)

/-- Result of one call to `dpdk_interface_tx`. -/
structure TxCallResult where
  /-- `ring->tx_head` on return -/
  head : Nat
  /-- `ring->tx_tail` on return -/
  tail : Nat
  /-- `ring->tx_head` right after line 700 (`+= n_packets`) -/
  head_after_enqueue : Nat
  /-- descriptors actually written into ring slots by the enqueue loop -/
  appended : Nat
  /-- the function's return value -/
  ret : Nat
  /-- `DPDK_TX_FUNC_ERROR_RING_FULL` increments -/
  ring_full_inc : Nat
  /-- `DPDK_TX_FUNC_ERROR_REPL_FAIL` increments -/
  repl_fail_inc : Nat
  /-- `DPDK_TX_FUNC_ERROR_PKT_DROP` increments -/
  pkt_drop_inc : Nat
  /-- `VNET_INTERFACE_COUNTER_TX_ERROR` increments -/
  tx_error_counter_inc : Nat
  /-- buffer indices freed on the ring-overflow path (in free order) -/
  freed_frame : List Nat
  /-- ring slots freed on the no-flowcontrol drop path (in free order) -/
  freed_slots : List Nat
  /-- buffer indices on `dm->recycle[my_cpu]`, freed at the end of the call -/
  recycle_freed : List Nat
  /-- flowcontrol callback invocation: `some n_pending` if invoked -/
  callback : Option Nat
  /-- transmit-primitive invocations made by the inner burst call -/
  burst_calls : Nat
deriving Repr, DecidableEq

/-- `dpdk_interface_tx` (device.c:456-761), at the level of the ring
counters, counters/traces, and free/recycle effects.  `batch` carries each
frame packet together with its replication-success oracle. -/
def dpdk_interface_tx (RING : Nat) (fc : Bool)
    (prim : Nat → Nat → Nat → Int) (h t : Nat)
    (batch : List (TxPkt × Bool)) : TxCallResult :=
  let n_packets := batch.length
  let n_on_ring := h - t
  if n_on_ring + n_packets > RING then
    -- lines 487-504: drop the whole frame (freed last-to-first), count
    -- RING_FULL once per packet, leave the ring alone, return n_on_ring
    { head := h, tail := t, head_after_enqueue := h, appended := 0,
      ret := n_on_ring, ring_full_inc := n_packets, repl_fail_inc := 0,
      pkt_drop_inc := 0, tx_error_counter_inc := 0,
      freed_frame := (batch.map (·.1.bi)).reverse, freed_slots := [],
      recycle_freed := [], callback := none, burst_calls := 0 }
  else
    let outs := processBatch batch
    let appended := outs.countP (·.appended)
    let replf := (outs.map (·.repl_fail_inc)).sum
    -- `vec_add1 (dm->recycle[my_cpu], bi)` entries, freed at lines 751-756
    let recyc := batch.filterMap
      (fun x => if (processPkt x.1 x.2).recycled then some x.1.bi else none)
    -- line 700: `ring->tx_head += n_packets` (the full frame size)
    let h' := h + n_packets
    let n_on_ring' := h' - t
    let b := tx_burst_vector_internal prim RING fc h' t
    let tx_pkts := n_on_ring' - b.n_left
    if fc then
      if b.n_left ≠ 0 then
        -- lines 714-718: notify the traffic manager, keep the backlog
        { head := h', tail := b.tail, head_after_enqueue := h',
          appended := appended, ret := tx_pkts, ring_full_inc := 0,
          repl_fail_inc := replf, pkt_drop_inc := 0,
          tx_error_counter_inc := 0, freed_frame := [], freed_slots := [],
          recycle_freed := recyc, callback := some (h' - b.tail),
          burst_calls := b.calls }
      else
        -- lines 719-724: fully drained, reset head/tail
        { head := 0, tail := 0, head_after_enqueue := h',
          appended := appended, ret := tx_pkts, ring_full_inc := 0,
          repl_fail_inc := replf, pkt_drop_inc := 0,
          tx_error_counter_inc := 0, freed_frame := [], freed_slots := [],
          recycle_freed := recyc, callback := none, burst_calls := b.calls }
    else
      -- lines 726-749: drop the leftovers (slots tail+n-1 … tail), count
      -- them as TX_ERROR and PKT_DROP, then reset head/tail
      { head := 0, tail := 0, head_after_enqueue := h',
        appended := appended, ret := tx_pkts, ring_full_inc := 0,
        repl_fail_inc := replf, pkt_drop_inc := b.n_left,
        tx_error_counter_inc := b.n_left, freed_frame := [],
        freed_slots := (List.range b.n_left).reverse.map (fun j => b.tail + j),
        recycle_freed := recyc, callback := none, burst_calls := b.calls }

/-- `dpdk_interface_tx_vector` (device.c:413-435): drain the ring if it is
non-empty.  Result: (`ring->tx_head`, `ring->tx_tail`, returned count). -/
def dpdk_interface_tx_vector (prim : Nat → Nat → Nat → Int) (RING : Nat)
    (fc : Bool) (h t : Nat) : Nat × Nat × Nat :=
  if h = t then (h, t, 0)
  else
    let r := tx_burst_vector_internal prim RING fc h t
    (h, r.tail, r.n_left)

/-- Ring states reachable from the empty ring by any sequence of enqueue
and drain operations (with a primitive honouring its contract, and batches
of at least one packet — `tx_burst_vector_internal` asserts
`n_packets > 0`, so drains of an empty ring are guarded by the callers). -/
inductive Reach (RING : Nat) : Nat → Nat → Prop where
  | init : Reach RING 0 0
  | tx : ∀ {h t} (fc : Bool) (prim : Nat → Nat → Nat → Int)
      (batch : List (TxPkt × Bool)), Reach RING h t → WellBehaved prim →
      1 ≤ batch.length →
      Reach RING (dpdk_interface_tx RING fc prim h t batch).head
        (dpdk_interface_tx RING fc prim h t batch).tail
  | txvec : ∀ {h t} (fc : Bool) (prim : Nat → Nat → Nat → Int),
      Reach RING h t → WellBehaved prim →
      Reach RING (dpdk_interface_tx_vector prim RING fc h t).1
        (dpdk_interface_tx_vector prim RING fc h t).2.1
  | burst : ∀ {h t} (fc : Bool) (prim : Nat → Nat → Nat → Int),
      Reach RING h t → WellBehaved prim → t < h →
      Reach RING h (tx_burst_vector_internal prim RING fc h t).tail

/-! ## Concrete instances used by the closed theorems -/

/-- A transmit primitive that accepts the whole first (wrap) slice of 4,
then only 2 of the 4 offered by the follow-up call, then the rest.  Every
answer is at most the count offered at that call, so it honours the
primitive's contract. -/
def c1prim : Nat → Nat → Nat → Int :=
  fun k _ _ => if k = 0 then 4 else if k = 1 then 2 else if k = 2 then 2 else 0

/-- A transmit primitive that always reports failure. -/
def primNeg : Nat → Nat → Nat → Int := fun _ _ _ => -1

/-- A transmit primitive that accepts nothing. -/
def primZero : Nat → Nat → Nat → Int := fun _ _ _ => 0

/-- A transmit primitive that accepts at most one packet per call. -/
def primOne : Nat → Nat → Nat → Int := fun _ _ cnt => ((min 1 cnt : Nat) : Int)

/-- A packet marked for replication (`clone_count = 1`), used with a failing
replication oracle. -/
def pkClone : TxPkt :=
  { clone_count := 1, flags_repl_fail := false, len_in_chain := 60,
    current_data := 0, mb_pkt_len := 60, mb_data_len := 60,
    mb_data_off := 128, bi := 7 }

/-- An ordinary packet (no replication requested). -/
def pkPlain : TxPkt :=
  { clone_count := 0, flags_repl_fail := false, len_in_chain := 60,
    current_data := 0, mb_pkt_len := 60, mb_data_len := 60,
    mb_data_off := 128, bi := 3 }

/-- A replication-failed packet whose descriptor `pkt_len` is `2^16`:
the `(u16)((i16)mb->pkt_len + delta)` reconciliation truncates it. -/
def pkTrunc : TxPkt :=
  { clone_count := 1, flags_repl_fail := false, len_in_chain := 65536,
    current_data := 0, mb_pkt_len := 65536, mb_data_len := 100,
    mb_data_off := 128, bi := 0 }

/-! ## Helper lemmas -/

lemma u16_i16_id (d : Nat) (hd : d < 65536) : u16 (i16 (d : Int)) = d := by
  unfold u16 i16
  split_ifs with h1
  · rw [Int.emod_emod_of_dvd _ dvd_rfl]; omega
  · omega

/-- The slice a single burst offers never exceeds the pending count. -/
lemma slice_le (RING tail head : Nat) (hR : 0 < RING) (h1 : tail < head)
    (h2 : head - tail ≤ RING) :
    (if head % RING > tail % RING then head % RING - tail % RING
     else RING - tail % RING) ≤ head - tail := by
  have ha : tail % RING < RING := Nat.mod_lt _ hR
  obtain ⟨d, rfl⟩ : ∃ d, head = tail + d := ⟨head - tail, by omega⟩
  have hd1 : 1 ≤ d := by omega
  have hd2 : d ≤ RING := by omega
  have hm : (tail + d) % RING = (tail % RING + d) % RING :=
    (Nat.mod_add_mod tail RING d).symm
  by_cases hlt : tail % RING + d < RING
  · rw [hm, Nat.mod_eq_of_lt hlt] at *
    split_ifs with h3 <;> omega
  · have hsub : (tail % RING + d) % RING = tail % RING + d - RING := by
      rw [Nat.mod_eq_sub_mod (by omega), Nat.mod_eq_of_lt (by omega)]
    rw [hm, hsub] at *
    split_ifs with h3 <;> omega

/-- An allocation failure after `j` successful allocations frees exactly the
`j` segments allocated so far and aborts the copy. -/
lemma replGo_fail (ids : List Nat) :
    ∀ (chain : List MbufSeg) (n : Nat) (rest : List (Option Nat)) (st : Store)
      (acc : List MbufSeg) (alld : List Nat),
      ids.length < n → ids.length < chain.length →
      ∃ st', replGo n chain (ids.map some ++ none :: rest) st acc alld
        = (none, st', acc.reverse.map (·.buf_id) ++ ids,
           alld.reverse ++ ids) := by
  induction ids with
  | nil =>
      intro chain n rest st acc alld hn hc
      cases n with
      | zero => omega
      | succ n =>
          cases chain with
          | nil => simp at hc
          | cons s cs => exact ⟨st, by simp [replGo]⟩
  | cons i is ih =>
      intro chain n rest st acc alld hn hc
      cases n with
      | zero => omega
      | succ n =>
          cases chain with
          | nil => simp at hc
          | cons s cs =>
              obtain ⟨st', heq⟩ := ih cs n rest
                (memcpyInto st i s.buf_id (s.data_len + RTE_PKTMBUF_HEADROOM))
                (⟨i, s.data_len⟩ :: acc) (i :: alld)
                (by simpa using hn) (by simpa using hc)
              refine ⟨st', ?_⟩
              simp only [List.map_cons, List.cons_append, replGo]
              rw [heq]
              simp [List.append_assoc]

/-- A run of the copy loop in which every allocation succeeds builds the
copy chain, touches no buffer outside the freshly allocated identities, and
fills each fresh buffer with the corresponding original segment's bytes. -/
lemma replGo_success (ids : List Nat) :
    ∀ (chain : List MbufSeg) (rest : List (Option Nat)) (st : Store)
      (acc : List MbufSeg) (alld : List Nat),
      ids.Nodup →
      (∀ i ∈ ids, ∀ s ∈ chain, i ≠ s.buf_id) →
      ids.length = chain.length →
      ∃ st',
        replGo chain.length chain (ids.map some ++ rest) st acc alld
          = (some (acc.reverse ++
               List.zipWith (fun i s => MbufSeg.mk i s.data_len) ids chain),
             st', [], alld.reverse ++ ids) ∧
        (∀ j, j ∉ ids → st' j = st j) ∧
        (∀ k, k < chain.length →
           st' (ids.getD k 0)
             = (st ((chain.getD k ⟨0, 0⟩).buf_id)).take
                 ((chain.getD k ⟨0, 0⟩).data_len + RTE_PKTMBUF_HEADROOM)
               ++ (st (ids.getD k 0)).drop
                 ((chain.getD k ⟨0, 0⟩).data_len + RTE_PKTMBUF_HEADROOM)) := by
  induction ids with
  | nil =>
      intro chain rest st acc alld _ _ hlen
      cases chain with
      | nil =>
          refine ⟨st, by simp [replGo], fun j _ => rfl, fun k hk => by simp at hk⟩
      | cons s cs => simp at hlen
  | cons i is ih =>
      intro chain rest st acc alld hnd hfresh hlen
      cases chain with
      | nil => simp at hlen
      | cons s cs =>
          have hnd' : is.Nodup := (List.nodup_cons.mp hnd).2
          have hi_not : i ∉ is := (List.nodup_cons.mp hnd).1
          have hfresh' : ∀ x ∈ is, ∀ u ∈ cs, x ≠ u.buf_id := by
            intro x hx u hu
            exact hfresh x (List.mem_cons_of_mem _ hx) u (List.mem_cons_of_mem _ hu)
          obtain ⟨st', heq, hout, hidx⟩ := ih cs rest
            (memcpyInto st i s.buf_id (s.data_len + RTE_PKTMBUF_HEADROOM))
            (⟨i, s.data_len⟩ :: acc) (i :: alld) hnd' hfresh'
            (by simpa using hlen)
          have hi_src : ∀ u ∈ (s :: cs), i ≠ u.buf_id := fun u hu =>
            hfresh i (List.mem_cons_self _ _) u hu
          refine ⟨st', ?_, ?_, ?_⟩
          · simp only [List.length_cons, List.map_cons, List.cons_append, replGo]
            rw [heq]
            simp [List.append_assoc]
          · intro j hj
            have hj_is : j ∉ is := fun hmem => hj (List.mem_cons_of_mem _ hmem)
            have hj_i : j ≠ i := fun hji => hj (hji ▸ List.mem_cons_self _ _)
            rw [hout j hj_is]
            simp [memcpyInto, hj_i]
          · intro k hk
            cases k with
            | zero =>
                have h0 : st' i = memcpyInto st i s.buf_id
                    (s.data_len + RTE_PKTMBUF_HEADROOM) i := hout i hi_not
                simp only [List.getD_cons_zero]
                rw [h0]
                simp [memcpyInto]
            | succ k =>
                have hk' : k < cs.length := by
                  simp only [List.length_cons] at hk; omega
                have hkis : k < is.length := by
                  simp only [List.length_cons] at hlen; omega
                have hmain := hidx k hk'
                have hsrc_mem : (cs.getD k ⟨0, 0⟩) ∈ (s :: cs) := by
                  rw [List.getD_eq_getElem _ _ hk']
                  exact List.mem_cons_of_mem _ (List.getElem_mem hk')
                have hid_mem : is.getD k 0 ∈ is := by
                  rw [List.getD_eq_getElem _ _ hkis]
                  exact List.getElem_mem hkis
                have hsrc_ne : (cs.getD k ⟨0, 0⟩).buf_id ≠ i := fun h =>
                  hi_src _ hsrc_mem h.symm
                have hid_ne : is.getD k 0 ≠ i := fun hEq =>
                  hi_not (hEq ▸ hid_mem)
                have hstep1 : memcpyInto st i s.buf_id
                    (s.data_len + RTE_PKTMBUF_HEADROOM)
                    (cs.getD k ⟨0, 0⟩).buf_id
                    = st (cs.getD k ⟨0, 0⟩).buf_id := by
                  simp only [memcpyInto]
                  rw [if_neg hsrc_ne]
                have hstep2 : memcpyInto st i s.buf_id
                    (s.data_len + RTE_PKTMBUF_HEADROOM) (is.getD k 0)
                    = st (is.getD k 0) := by
                  simp only [memcpyInto]
                  rw [if_neg hid_ne]
                rw [hstep1, hstep2] at hmain
                simpa only [List.getD_cons_succ] using hmain

/-- Loop invariant of the drain loop: for a contract-honouring primitive the
tail only moves forward, never past `head`, and the loop's `n_packets`
always equals the pending count `head - tail`. -/
lemma txBurstLoop_inv (prim : Nat → Nat → Nat → Int) (RING : Nat)
    (hR : 0 < RING) (hW : WellBehaved prim) (head : Nat) :
    ∀ fuel tail n_retry k, tail < head → head - tail ≤ RING →
      tail ≤ (txBurstLoop prim RING (head % RING) fuel tail (head - tail)
          n_retry k).tail ∧
      (txBurstLoop prim RING (head % RING) fuel tail (head - tail)
          n_retry k).tail ≤ head ∧
      (txBurstLoop prim RING (head % RING) fuel tail (head - tail)
          n_retry k).n_left
        = head - (txBurstLoop prim RING (head % RING) fuel tail (head - tail)
          n_retry k).tail := by
  intro fuel
  induction fuel with
  | zero =>
      intro tail n_retry k h1 h2
      simp only [txBurstLoop]
      exact ⟨Nat.le_refl _, by omega, trivial⟩
  | succ fuel ih =>
      intro tail n_retry k h1 h2
      have hcnt := slice_le RING tail head hR h1 h2
      simp only [txBurstLoop]
      by_cases hsl : head % RING > tail % RING
      · simp only [if_pos hsl] at hcnt ⊢
        by_cases hneg :
            prim k (tail % RING) (head % RING - tail % RING) < 0
        · simp only [if_pos hneg]
          exact ⟨Nat.le_refl _, by omega, trivial⟩
        · simp only [if_neg hneg]
          have hrvle : (prim k (tail % RING)
                (head % RING - tail % RING)).toNat
              ≤ head % RING - tail % RING :=
            Int.toNat_le.mpr (hW k (tail % RING) _)
          set x := (prim k (tail % RING)
              (head % RING - tail % RING)).toNat % 65536 with hx_def
          have hx : x ≤ head - tail := by
            have := Nat.mod_le (prim k (tail % RING)
              (head % RING - tail % RING)).toNat 65536
            omega
          by_cases hguard : prim k (tail % RING)
                (head % RING - tail % RING) ≠ 0
              ∧ head - tail - x ≠ 0 ∧ n_retry > 0
          · simp only [if_pos hguard]
            obtain ⟨-, hn', -⟩ := hguard
            have h1' : tail + x < head := by omega
            have hrw : head - tail - x = head - (tail + x) := by omega
            rw [hrw]
            have h3 := ih (tail + x) n_retry (k + 1) h1' (by omega)
            omega
          · simp only [if_neg hguard]
            omega
      · simp only [if_neg hsl] at hcnt ⊢
        by_cases hneg : prim k (tail % RING) (RING - tail % RING) < 0
        · simp only [if_pos hneg]
          exact ⟨Nat.le_refl _, by omega, trivial⟩
        · simp only [if_neg hneg]
          have hrvle : (prim k (tail % RING) (RING - tail % RING)).toNat
              ≤ RING - tail % RING :=
            Int.toNat_le.mpr (hW k (tail % RING) _)
          set x := (prim k (tail % RING)
              (RING - tail % RING)).toNat % 65536 with hx_def
          have hx : x ≤ head - tail := by
            have := Nat.mod_le (prim k (tail % RING)
              (RING - tail % RING)).toNat 65536
            omega
          by_cases hwrapeq : prim k (tail % RING) (RING - tail % RING)
              = ((RING - tail % RING : Nat) : Int)
          · simp only [if_pos hwrapeq]
            by_cases hguard : prim k (tail % RING) (RING - tail % RING) ≠ 0
                ∧ head - tail - x ≠ 0 ∧ (1 : Nat) > 0
            · simp only [if_pos hguard]
              obtain ⟨-, hn', -⟩ := hguard
              have h1' : tail + x < head := by omega
              have hrw : head - tail - x = head - (tail + x) := by omega
              rw [hrw]
              have h3 := ih (tail + x) 1 (k + 1) h1' (by omega)
              omega
            · simp only [if_neg hguard]
              omega
          · simp only [if_neg hwrapeq]
            by_cases hguard : prim k (tail % RING) (RING - tail % RING) ≠ 0
                ∧ head - tail - x ≠ 0 ∧ (0 : Nat) > 0
            · exact absurd hguard.2.2 (by omega)
            · simp only [if_neg hguard]
              omega

/-- Corollary of the loop invariant for the full burst call. -/
lemma tx_burst_inv (prim : Nat → Nat → Nat → Int) (RING : Nat) (fc : Bool)
    (head tail : Nat) (hR : 0 < RING) (hW : WellBehaved prim)
    (h1 : tail < head) (h2 : head - tail ≤ RING) :
    tail ≤ (tx_burst_vector_internal prim RING fc head tail).tail ∧
    (tx_burst_vector_internal prim RING fc head tail).tail ≤ head ∧
    (tx_burst_vector_internal prim RING fc head tail).n_left
      = head - (tx_burst_vector_internal prim RING fc head tail).tail := by
  unfold tx_burst_vector_internal
  exact txBurstLoop_inv prim RING hR hW head (head - tail + 1) tail
    (if fc then 0 else 255) 0 h1 h2

/-! ## Claim theorems -/

/-- Claim C1.  With a flow-control callback registered, the drain loop is
claimed to invoke the transmit primitive at most twice per outer call
(wrap slice plus at most one follow-up, no retry of the follow-up).  The
code disagrees: `n_retry` is set to 1 after a fully accepted wrap slice and
is never decremented, so a partially accepted follow-up call is retried.
With `RING = 16`, `tail = 12`, `head = 20` and a contract-honouring
primitive answering 4 (wrap slice fully accepted), then 2 of 4, then 2,
`tx_burst_vector_internal` makes three primitive invocations. -/
theorem tx_burst_flowcontrol_three_calls :
    tx_burst_vector_internal c1prim 16 true 20 12
      = { tail := 20, n_left := 0, calls := 3, bad_retval := 0 }
    ∧ c1prim 0 12 4 = 4 ∧ c1prim 1 0 4 = 2 ∧ c1prim 2 2 2 = 2 := by
  decide

/-- Claim C2.  `dpdk_interface_tx` is claimed to advance `tx_head` by the
number of descriptors actually appended (batch size minus replication
failures).  The code advances it by the full batch size (line 700,
`ring->tx_head += n_packets`): for a one-packet batch whose replication
fails, nothing is appended yet the head still advances by 1, so the burst
then transmits a stale ring slot. -/
theorem tx_head_advance_ignores_repl_fail :
    (dpdk_interface_tx 4 false primZero 0 0 [(pkClone, false)]).appended = 0
    ∧ (dpdk_interface_tx 4 false primZero 0 0
        [(pkClone, false)]).head_after_enqueue = 1
    ∧ (dpdk_interface_tx 4 false primZero 0 0
        [(pkClone, false)]).repl_fail_inc = 1 := by
  decide

/-- Claim C6.  Whenever the transmit primitive returns a negative value at
any iteration of the drain loop, the loop records exactly one BAD_RETVAL
error, stops immediately, returns the whole still-pending count (attempted
or not), and leaves the tail where the last successful call put it. -/
theorem negative_rv_stops_burst (prim : Nat → Nat → Nat → Int)
    (RING tx_head fuel tail n_packets n_retry k : Nat)
    (hneg : prim k (tail % RING)
      (if tx_head > tail % RING then tx_head - tail % RING
       else RING - tail % RING) < 0) :
    txBurstLoop prim RING tx_head (fuel + 1) tail n_packets n_retry k
      = { tail := tail, n_left := n_packets, calls := 1, bad_retval := 1 } := by
  simp only [txBurstLoop]
  rw [if_pos hneg]

/-- Witness for C6 at a concrete state: 4 packets pending at `tail = 2` of
a ring of 8, primitive fails. -/
theorem negative_rv_stops_burst_witness :
    (primNeg 0 (2 % 8)
      (if 5 > 2 % 8 then 5 - 2 % 8 else 8 - 2 % 8) < 0)
    ∧ txBurstLoop primNeg 8 5 3 2 4 255 0
      = { tail := 2, n_left := 4, calls := 1, bad_retval := 1 } :=
  ⟨by decide, negative_rv_stops_burst primNeg 8 5 2 2 4 255 0 (by decide)⟩

/-- Claim C10, counterexample.  The view-reconciliation step is claimed
never to mutate a replication-failed packet's descriptor.  For a failed
packet whose descriptor has `pkt_len = 65536`, the write
`mb->pkt_len = (u16)((i16)mb->pkt_len + 0)` truncates it to 0. -/
theorem repl_fail_pkt_len_truncated_cex :
    (processPkt pkTrunc false).flags_repl_fail = true
    ∧ pkTrunc.mb_pkt_len = 65536
    ∧ (processPkt pkTrunc false).mb_pkt_len = 0 := by
  decide

/-- Claim C10, amended.  For a packet whose replication fails, the
reconciliation forces the length delta to 0 and keeps `data_off`; `data_len`
is always written back unchanged, and `pkt_len` is written back unchanged
provided it fits in 16 bits (otherwise the `u16` cast truncates it). -/
theorem repl_fail_descriptor_preserved (p : TxPkt) (replOk : Bool)
    (hclone : p.clone_count ≠ 0) (hfail : replOk = false)
    (hpl : p.mb_pkt_len < 65536) (hdl : p.mb_data_len < 65536) :
    (processPkt p replOk).mb_pkt_len = p.mb_pkt_len
    ∧ (processPkt p replOk).mb_data_len = p.mb_data_len
    ∧ (processPkt p replOk).mb_data_off = p.mb_data_off
    ∧ (processPkt p replOk).flags_repl_fail = true := by
  subst hfail
  simp [processPkt, hclone]
  exact ⟨u16_i16_id _ hpl, u16_i16_id _ hdl⟩

/-- Witness for the amended C10 at a concrete failed packet. -/
theorem repl_fail_descriptor_preserved_witness :
    (pkClone.clone_count ≠ 0 ∧ pkClone.mb_pkt_len < 65536
      ∧ pkClone.mb_data_len < 65536)
    ∧ ((processPkt pkClone false).mb_pkt_len = pkClone.mb_pkt_len
      ∧ (processPkt pkClone false).mb_data_len = pkClone.mb_data_len
      ∧ (processPkt pkClone false).mb_data_off = pkClone.mb_data_off
      ∧ (processPkt pkClone false).flags_repl_fail = true) :=
  ⟨by decide, repl_fail_descriptor_preserved pkClone false (by decide) rfl
    (by decide) (by decide)⟩

/-- Claim C3.  A batch that would overflow the ring
(`head - tail + batch_size > capacity`) is rejected atomically: every
packet of the batch is freed, RING_FULL is counted once per packet, the
counters are untouched, no burst is attempted, and the pending count is
returned. -/
theorem ring_overflow_rejects_batch (RING : Nat) (fc : Bool)
    (prim : Nat → Nat → Nat → Int) (h t : Nat) (batch : List (TxPkt × Bool))
    (hover : h - t + batch.length > RING) :
    (dpdk_interface_tx RING fc prim h t batch).head = h
    ∧ (dpdk_interface_tx RING fc prim h t batch).tail = t
    ∧ (dpdk_interface_tx RING fc prim h t batch).ring_full_inc = batch.length
    ∧ (dpdk_interface_tx RING fc prim h t batch).freed_frame
        = (batch.map (·.1.bi)).reverse
    ∧ (∀ x ∈ batch,
        x.1.bi ∈ (dpdk_interface_tx RING fc prim h t batch).freed_frame)
    ∧ (dpdk_interface_tx RING fc prim h t batch).burst_calls = 0
    ∧ (dpdk_interface_tx RING fc prim h t batch).ret = h - t := by
  simp only [dpdk_interface_tx, if_pos hover]
  refine ⟨trivial, trivial, trivial, trivial, ?_, trivial, trivial⟩
  intro x hx
  simp only [List.mem_reverse, List.mem_map]
  exact ⟨x, hx, rfl⟩

/-- Witness for C3: ring of 4 holding 0, batch of 5. -/
theorem ring_overflow_rejects_batch_witness :
    ((0 : Nat) - 0 + (List.replicate 5 (pkPlain, true)).length > 4)
    ∧ ((dpdk_interface_tx 4 false primZero 0 0
          (List.replicate 5 (pkPlain, true))).head = 0
      ∧ (dpdk_interface_tx 4 false primZero 0 0
          (List.replicate 5 (pkPlain, true))).tail = 0
      ∧ (dpdk_interface_tx 4 false primZero 0 0
          (List.replicate 5 (pkPlain, true))).ring_full_inc
          = (List.replicate 5 (pkPlain, true)).length
      ∧ (dpdk_interface_tx 4 false primZero 0 0
          (List.replicate 5 (pkPlain, true))).freed_frame
          = ((List.replicate 5 (pkPlain, true)).map (·.1.bi)).reverse
      ∧ (∀ x ∈ List.replicate 5 (pkPlain, true),
          x.1.bi ∈ (dpdk_interface_tx 4 false primZero 0 0
            (List.replicate 5 (pkPlain, true))).freed_frame)
      ∧ (dpdk_interface_tx 4 false primZero 0 0
          (List.replicate 5 (pkPlain, true))).burst_calls = 0
      ∧ (dpdk_interface_tx 4 false primZero 0 0
          (List.replicate 5 (pkPlain, true))).ret = 0 - 0) :=
  ⟨by decide,
   ring_overflow_rejects_batch 4 false primZero 0 0
     (List.replicate 5 (pkPlain, true)) (by decide)⟩

/-- Claim C5.  With no flow-control callback, after every call that passes
the overflow check the leftover packets (the burst's untransmitted count)
are freed from the pending ring slots and counted both as interface
TX_ERROR and as PKT_DROP, and the ring is reset to `head = tail = 0`. -/
theorem no_flowcontrol_drops_and_resets (RING : Nat)
    (prim : Nat → Nat → Nat → Int) (h t : Nat) (batch : List (TxPkt × Bool))
    (hcap : h - t + batch.length ≤ RING) :
    (dpdk_interface_tx RING false prim h t batch).head = 0
    ∧ (dpdk_interface_tx RING false prim h t batch).tail = 0
    ∧ (dpdk_interface_tx RING false prim h t batch).tx_error_counter_inc
        = (tx_burst_vector_internal prim RING false (h + batch.length) t).n_left
    ∧ (dpdk_interface_tx RING false prim h t batch).pkt_drop_inc
        = (tx_burst_vector_internal prim RING false (h + batch.length) t).n_left
    ∧ (∀ s, s ∈ (dpdk_interface_tx RING false prim h t batch).freed_slots
        ↔ (tx_burst_vector_internal prim RING false (h + batch.length) t).tail
            ≤ s
          ∧ s < (tx_burst_vector_internal prim RING false
              (h + batch.length) t).tail
            + (tx_burst_vector_internal prim RING false
              (h + batch.length) t).n_left) := by
  have hno : ¬ (h - t + batch.length > RING) := by omega
  simp only [dpdk_interface_tx, if_neg hno, Bool.false_eq_true, if_false]
  refine ⟨trivial, trivial, trivial, trivial, ?_⟩
  intro s
  simp only [List.mem_map, List.mem_reverse, List.mem_range]
  constructor
  · rintro ⟨j, hj, rfl⟩
    omega
  · rintro ⟨hle, hlt⟩
    exact ⟨s - (tx_burst_vector_internal prim RING false
      (h + batch.length) t).tail, by omega, by omega⟩

/-- Witness for C5: ring of 4, batch of 2, device accepts nothing, so both
leftovers are dropped and the ring is reset. -/
theorem no_flowcontrol_drops_and_resets_witness :
    ((0 : Nat) - 0 + [(pkPlain, true), (pkPlain, true)].length ≤ 4)
    ∧ ((dpdk_interface_tx 4 false primZero 0 0
          [(pkPlain, true), (pkPlain, true)]).head = 0
      ∧ (dpdk_interface_tx 4 false primZero 0 0
          [(pkPlain, true), (pkPlain, true)]).tail = 0
      ∧ (dpdk_interface_tx 4 false primZero 0 0
          [(pkPlain, true), (pkPlain, true)]).tx_error_counter_inc
          = (tx_burst_vector_internal primZero 4 false
              (0 + [(pkPlain, true), (pkPlain, true)].length) 0).n_left
      ∧ (dpdk_interface_tx 4 false primZero 0 0
          [(pkPlain, true), (pkPlain, true)]).pkt_drop_inc
          = (tx_burst_vector_internal primZero 4 false
              (0 + [(pkPlain, true), (pkPlain, true)].length) 0).n_left
      ∧ (∀ s, s ∈ (dpdk_interface_tx 4 false primZero 0 0
            [(pkPlain, true), (pkPlain, true)]).freed_slots
          ↔ (tx_burst_vector_internal primZero 4 false
              (0 + [(pkPlain, true), (pkPlain, true)].length) 0).tail ≤ s
            ∧ s < (tx_burst_vector_internal primZero 4 false
                (0 + [(pkPlain, true), (pkPlain, true)].length) 0).tail
              + (tx_burst_vector_internal primZero 4 false
                (0 + [(pkPlain, true), (pkPlain, true)].length) 0).n_left)) :=
  ⟨by decide,
   no_flowcontrol_drops_and_resets 4 primZero 0 0
     [(pkPlain, true), (pkPlain, true)] (by decide)⟩

/-- Claim C9.  With a flow-control callback registered and a batch passing
the overflow check: when packets remain pending after the drain, the
callback is invoked with exactly the pending count `head - tail` and the
ring keeps its counters; when nothing remains pending, the ring is reset to
`head = tail = 0` and the callback is not invoked. -/
theorem flowcontrol_callback_contract (RING : Nat)
    (prim : Nat → Nat → Nat → Int) (h t : Nat) (batch : List (TxPkt × Bool))
    (hR : 0 < RING) (hW : WellBehaved prim) (ht : t ≤ h)
    (hn : 1 ≤ batch.length) (hcap : h - t + batch.length ≤ RING) :
    (0 < h + batch.length
        - (tx_burst_vector_internal prim RING true (h + batch.length) t).tail →
      (dpdk_interface_tx RING true prim h t batch).callback
        = some (h + batch.length
            - (tx_burst_vector_internal prim RING true (h + batch.length) t).tail)
      ∧ (dpdk_interface_tx RING true prim h t batch).head = h + batch.length
      ∧ (dpdk_interface_tx RING true prim h t batch).tail
          = (tx_burst_vector_internal prim RING true (h + batch.length) t).tail)
    ∧ (h + batch.length
        - (tx_burst_vector_internal prim RING true (h + batch.length) t).tail
          = 0 →
      (dpdk_interface_tx RING true prim h t batch).head = 0
      ∧ (dpdk_interface_tx RING true prim h t batch).tail = 0
      ∧ (dpdk_interface_tx RING true prim h t batch).callback = none) := by
  obtain ⟨hA, hB, hC⟩ := tx_burst_inv prim RING true (h + batch.length) t hR hW
    (by omega) (by omega)
  have hno : ¬ (h - t + batch.length > RING) := by omega
  simp only [dpdk_interface_tx, if_neg hno, if_true]
  by_cases hz :
      (tx_burst_vector_internal prim RING true (h + batch.length) t).n_left = 0
  · rw [if_neg (by simpa using hz)]
    constructor
    · intro hpos
      omega
    · intro _
      exact ⟨rfl, rfl, rfl⟩
  · rw [if_pos (by simpa using hz)]
    constructor
    · intro _
      exact ⟨rfl, rfl, rfl⟩
    · intro hzero
      omega

/-- Witness for C9: ring of 8, empty, batch of 2, device accepts one packet
per call; flow control kicks in with a backlog of 1. -/
theorem flowcontrol_callback_contract_witness :
    ((0 : Nat) < 8 ∧ WellBehaved primOne ∧ (0 : Nat) ≤ 0
      ∧ 1 ≤ [(pkPlain, true), (pkPlain, true)].length
      ∧ (0 : Nat) - 0 + [(pkPlain, true), (pkPlain, true)].length ≤ 8)
    ∧ ((0 < 0 + [(pkPlain, true), (pkPlain, true)].length
          - (tx_burst_vector_internal primOne 8 true
              (0 + [(pkPlain, true), (pkPlain, true)].length) 0).tail →
        (dpdk_interface_tx 8 true primOne 0 0
            [(pkPlain, true), (pkPlain, true)]).callback
          = some (0 + [(pkPlain, true), (pkPlain, true)].length
              - (tx_burst_vector_internal primOne 8 true
                  (0 + [(pkPlain, true), (pkPlain, true)].length) 0).tail)
        ∧ (dpdk_interface_tx 8 true primOne 0 0
            [(pkPlain, true), (pkPlain, true)]).head
            = 0 + [(pkPlain, true), (pkPlain, true)].length
        ∧ (dpdk_interface_tx 8 true primOne 0 0
            [(pkPlain, true), (pkPlain, true)]).tail
            = (tx_burst_vector_internal primOne 8 true
                (0 + [(pkPlain, true), (pkPlain, true)].length) 0).tail)
      ∧ (0 + [(pkPlain, true), (pkPlain, true)].length
          - (tx_burst_vector_internal primOne 8 true
              (0 + [(pkPlain, true), (pkPlain, true)].length) 0).tail = 0 →
        (dpdk_interface_tx 8 true primOne 0 0
            [(pkPlain, true), (pkPlain, true)]).head = 0
        ∧ (dpdk_interface_tx 8 true primOne 0 0
            [(pkPlain, true), (pkPlain, true)]).tail = 0
        ∧ (dpdk_interface_tx 8 true primOne 0 0
            [(pkPlain, true), (pkPlain, true)]).callback = none)) :=
  ⟨⟨by decide,
    fun k s c => by
      simp only [primOne]
      exact_mod_cast Nat.min_le_right 1 c,
    by decide, by decide, by decide⟩,
   flowcontrol_callback_contract 8 primOne 0 0
     [(pkPlain, true), (pkPlain, true)] (by decide)
     (fun k s c => by
       simp only [primOne]
       exact_mod_cast Nat.min_le_right 1 c)
     (by decide) (by decide) (by decide)⟩

/-- Claim C4.  For every ring state reachable from the empty ring by
enqueue (`dpdk_interface_tx`) and drain (`tx_burst_vector_internal`,
`dpdk_interface_tx_vector`) operations, `head >= tail` and
`head - tail <= capacity`. -/
theorem ring_counters_invariant (RING h t : Nat) (hR : 0 < RING)
    (hreach : Reach RING h t) : t ≤ h ∧ h - t ≤ RING := by
  induction hreach with
  | init => omega
  | @tx h t fc prim batch hr hW hn ih =>
      by_cases hover : h - t + batch.length > RING
      · simp only [dpdk_interface_tx, if_pos hover]
        exact ih
      · simp only [dpdk_interface_tx, if_neg hover]
        obtain ⟨hA, hB, hC⟩ := tx_burst_inv prim RING fc (h + batch.length) t
          hR hW (by omega) (by omega)
        cases fc with
        | false =>
            simp only [Bool.false_eq_true, if_false]
            omega
        | true =>
            simp only [if_true]
            by_cases hz : (tx_burst_vector_internal prim RING true
                (h + batch.length) t).n_left = 0
            · rw [if_neg (by simpa using hz)]
              dsimp only
              omega
            · rw [if_pos (by simpa using hz)]
              dsimp only
              refine ⟨hB, by omega⟩
  | @txvec h t fc prim hr hW ih =>
      by_cases hht : h = t
      · simp only [dpdk_interface_tx_vector, if_pos hht]
        exact ih
      · simp only [dpdk_interface_tx_vector, if_neg hht]
        obtain ⟨hA, hB, hC⟩ := tx_burst_inv prim RING fc h t hR hW
          (by omega) ih.2
        exact ⟨hB, by omega⟩
  | @burst h t fc prim hr hW hlt ih =>
      obtain ⟨hA, hB, hC⟩ := tx_burst_inv prim RING fc h t hR hW hlt ih.2
      exact ⟨hB, by omega⟩

/-- Witness for C4 at a concrete reachable state: one enqueue of two
packets on an empty ring of 8 with a one-packet-per-call device. -/
theorem ring_counters_invariant_witness :
    ((0 : Nat) < 8
      ∧ Reach 8 (dpdk_interface_tx 8 true primOne 0 0
          [(pkPlain, true), (pkPlain, true)]).head
        (dpdk_interface_tx 8 true primOne 0 0
          [(pkPlain, true), (pkPlain, true)]).tail)
    ∧ (dpdk_interface_tx 8 true primOne 0 0
        [(pkPlain, true), (pkPlain, true)]).tail
      ≤ (dpdk_interface_tx 8 true primOne 0 0
        [(pkPlain, true), (pkPlain, true)]).head
    ∧ (dpdk_interface_tx 8 true primOne 0 0
        [(pkPlain, true), (pkPlain, true)]).head
      - (dpdk_interface_tx 8 true primOne 0 0
        [(pkPlain, true), (pkPlain, true)]).tail ≤ 8 := by
  have hW : WellBehaved primOne := fun k s c => by
    simp only [primOne]
    exact_mod_cast Nat.min_le_right 1 c
  have hreach : Reach 8 (dpdk_interface_tx 8 true primOne 0 0
      [(pkPlain, true), (pkPlain, true)]).head
      (dpdk_interface_tx 8 true primOne 0 0
        [(pkPlain, true), (pkPlain, true)]).tail :=
    Reach.tx true primOne [(pkPlain, true), (pkPlain, true)] Reach.init hW
      (by decide)
  have h := ring_counters_invariant 8 _ _ (by decide) hreach
  exact ⟨⟨by decide, hreach⟩, h.1, h.2⟩

/-- Index view of the copy chain built by the replicator. -/
lemma zipWith_mk_getD (ids : List Nat) :
    ∀ (segs : List MbufSeg) (k : Nat), ids.length = segs.length →
      k < segs.length →
      (List.zipWith (fun i s => MbufSeg.mk i s.data_len) ids segs).getD k
          ⟨0, 0⟩
        = ⟨ids.getD k 0, (segs.getD k ⟨0, 0⟩).data_len⟩ := by
  induction ids with
  | nil =>
      intro segs k hlen hk
      cases segs with
      | nil => simp at hk
      | cons s ss => simp at hlen
  | cons i is ih =>
      intro segs k hlen hk
      cases segs with
      | nil => simp at hk
      | cons s ss =>
          cases k with
          | zero => simp
          | succ k =>
              simp only [List.zipWith_cons_cons, List.getD_cons_succ]
              exact ih ss k (by simpa using hlen) (by simpa using hk)

/-- Claim C7.  A successful replication produces a copy with the same
`pkt_len`, `nb_segs` and `port`, one fresh segment per original segment
with identical per-segment `data_len`, byte-identical copied contents, and
storage fully decoupled from the original: building the copy leaves every
original buffer untouched, overwriting any copy buffer never changes an
original buffer, and overwriting any original buffer never changes a copy
buffer. -/
theorem replicate_success_fidelity
    (st : Store) (b : Mbuf) (ids : List Nat) (rest : List (Option Nat))
    (hn : b.segs.length = b.nb_segs) (hpos : 0 < b.nb_segs)
    (hlen : ids.length = b.segs.length) (hnd : ids.Nodup)
    (hfresh : ∀ i ∈ ids, ∀ s ∈ b.segs, i ≠ s.buf_id)
    (hroom : ∀ s ∈ b.segs,
      s.data_len + RTE_PKTMBUF_HEADROOM ≤ (st s.buf_id).length) :
    ∃ st',
      dpdk_replicate_packet_mb st (ids.map some ++ rest) b
        = (some ({ pkt_len := b.pkt_len, nb_segs := b.nb_segs,
                   port := b.port,
                   segs := List.zipWith (fun i s => MbufSeg.mk i s.data_len)
                     ids b.segs }, st'), [], ids)
      ∧ (List.zipWith (fun i s => MbufSeg.mk i s.data_len) ids b.segs).length
          = b.segs.length
      ∧ (∀ k, k < b.segs.length →
          (List.zipWith (fun i s => MbufSeg.mk i s.data_len)
              ids b.segs).getD k ⟨0, 0⟩
            = ⟨ids.getD k 0, (b.segs.getD k ⟨0, 0⟩).data_len⟩)
      ∧ (∀ k, k < b.segs.length →
          (st' (ids.getD k 0)).take
              ((b.segs.getD k ⟨0, 0⟩).data_len + RTE_PKTMBUF_HEADROOM)
            = (st ((b.segs.getD k ⟨0, 0⟩).buf_id)).take
              ((b.segs.getD k ⟨0, 0⟩).data_len + RTE_PKTMBUF_HEADROOM))
      ∧ (∀ s ∈ b.segs, st' s.buf_id = st s.buf_id)
      ∧ (∀ idw bytes, idw ∈ ids → ∀ s ∈ b.segs,
          writeStore st' idw bytes s.buf_id = st' s.buf_id)
      ∧ (∀ s ∈ b.segs, ∀ bytes k, k < b.segs.length →
          writeStore st' s.buf_id bytes (ids.getD k 0)
            = st' (ids.getD k 0)) := by
  obtain ⟨st', heq, hout, hidx⟩ :=
    replGo_success ids b.segs rest st [] [] hnd hfresh hlen
  have hnotin : ∀ s ∈ b.segs, s.buf_id ∉ ids := fun s hs hmem =>
    hfresh _ hmem s hs rfl
  have hidmem : ∀ k, k < b.segs.length → ids.getD k 0 ∈ ids := by
    intro k hk
    have hki : k < ids.length := by omega
    rw [List.getD_eq_getElem _ _ hki]
    exact List.getElem_mem hki
  have hsegmem : ∀ k, k < b.segs.length → b.segs.getD k ⟨0, 0⟩ ∈ b.segs := by
    intro k hk
    rw [List.getD_eq_getElem _ _ hk]
    exact List.getElem_mem hk
  refine ⟨st', ?_, ?_, ?_, ?_, ?_, ?_, ?_⟩
  · obtain ⟨i0, is, rfl⟩ : ∃ i0 is, ids = i0 :: is := by
      cases ids with
      | nil => simp at hlen; omega
      | cons a l => exact ⟨a, l, rfl⟩
    obtain ⟨s0, ss, hseq⟩ : ∃ s0 ss, b.segs = s0 :: ss := by
      cases hs : b.segs with
      | nil =>
          rw [hs] at hlen
          simp at hlen
      | cons a l => exact ⟨a, l, rfl⟩
    simp only [dpdk_replicate_packet_mb]
    rw [← hn, heq, hseq]
    simp
  · rw [List.length_zipWith]
    omega
  · intro k hk
    exact zipWith_mk_getD ids b.segs k hlen hk
  · intro k hk
    have hcb : (b.segs.getD k ⟨0, 0⟩).data_len + RTE_PKTMBUF_HEADROOM
        ≤ (st ((b.segs.getD k ⟨0, 0⟩).buf_id)).length :=
      hroom _ (hsegmem k hk)
    rw [hidx k hk,
      List.take_append_of_le_length (by rw [List.length_take]; omega),
      List.take_take, Nat.min_self]
  · intro s hs
    exact hout _ (hnotin s hs)
  · intro idw bytes hidw s hs
    simp only [writeStore]
    rw [if_neg (Ne.symm (hfresh idw hidw s hs))]
  · intro s hs bytes k hk
    simp only [writeStore]
    rw [if_neg (hfresh _ (hidmem k hk) s hs)]

set_option maxRecDepth 8192 in
/-- Witness for C7: a two-segment packet copied into fresh buffers 10, 11
out of a store where every buffer holds 200 bytes. -/
theorem replicate_success_fidelity_witness :
    (([MbufSeg.mk 0 60, MbufSeg.mk 1 40]).length
        = (Mbuf.mk 300 2 3 [MbufSeg.mk 0 60, MbufSeg.mk 1 40]).nb_segs
      ∧ (0 : Nat) < (Mbuf.mk 300 2 3 [MbufSeg.mk 0 60, MbufSeg.mk 1 40]).nb_segs
      ∧ ([10, 11] : List Nat).length
          = ([MbufSeg.mk 0 60, MbufSeg.mk 1 40]).length
      ∧ ([10, 11] : List Nat).Nodup
      ∧ (∀ i ∈ ([10, 11] : List Nat),
          ∀ s ∈ [MbufSeg.mk 0 60, MbufSeg.mk 1 40], i ≠ s.buf_id)
      ∧ (∀ s ∈ [MbufSeg.mk 0 60, MbufSeg.mk 1 40],
          s.data_len + RTE_PKTMBUF_HEADROOM
            ≤ (((fun _ => List.replicate 200 7) : Store) s.buf_id).length))
    ∧ (∃ st' : Store,
        dpdk_replicate_packet_mb (fun _ => List.replicate 200 7)
            (([10, 11] : List Nat).map some ++ [])
            (Mbuf.mk 300 2 3 [MbufSeg.mk 0 60, MbufSeg.mk 1 40])
          = (some (Mbuf.mk 300 2 3
              (List.zipWith (fun (i : Nat) (s : MbufSeg) =>
                  MbufSeg.mk i s.data_len) [10, 11]
                [MbufSeg.mk 0 60, MbufSeg.mk 1 40]), st'), [], [10, 11])
        ∧ (List.zipWith (fun (i : Nat) (s : MbufSeg) =>
              MbufSeg.mk i s.data_len) [10, 11]
            [MbufSeg.mk 0 60, MbufSeg.mk 1 40]).length
            = ([MbufSeg.mk 0 60, MbufSeg.mk 1 40]).length
        ∧ (∀ k, k < ([MbufSeg.mk 0 60, MbufSeg.mk 1 40]).length →
            (List.zipWith (fun (i : Nat) (s : MbufSeg) =>
                MbufSeg.mk i s.data_len) [10, 11]
                [MbufSeg.mk 0 60, MbufSeg.mk 1 40]).getD k (MbufSeg.mk 0 0)
              = MbufSeg.mk (([10, 11] : List Nat).getD k 0)
                 ((([MbufSeg.mk 0 60, MbufSeg.mk 1 40]).getD k
                   (MbufSeg.mk 0 0)).data_len))
        ∧ (∀ k, k < ([MbufSeg.mk 0 60, MbufSeg.mk 1 40]).length →
            (st' (([10, 11] : List Nat).getD k 0)).take
                ((([MbufSeg.mk 0 60, MbufSeg.mk 1 40]).getD k
                    (MbufSeg.mk 0 0)).data_len + RTE_PKTMBUF_HEADROOM)
              = (((fun _ => List.replicate 200 7) : Store)
                  ((([MbufSeg.mk 0 60, MbufSeg.mk 1 40]).getD k
                    (MbufSeg.mk 0 0)).buf_id)).take
                ((([MbufSeg.mk 0 60, MbufSeg.mk 1 40]).getD k
                    (MbufSeg.mk 0 0)).data_len + RTE_PKTMBUF_HEADROOM))
        ∧ (∀ s ∈ [MbufSeg.mk 0 60, MbufSeg.mk 1 40],
            st' s.buf_id = ((fun _ => List.replicate 200 7) : Store) s.buf_id)
        ∧ (∀ idw bytes, idw ∈ ([10, 11] : List Nat) →
            ∀ s ∈ [MbufSeg.mk 0 60, MbufSeg.mk 1 40],
            writeStore st' idw bytes s.buf_id = st' s.buf_id)
        ∧ (∀ s ∈ [MbufSeg.mk 0 60, MbufSeg.mk 1 40],
            ∀ bytes k, k < ([MbufSeg.mk 0 60, MbufSeg.mk 1 40]).length →
            writeStore st' s.buf_id bytes (([10, 11] : List Nat).getD k 0)
              = st' (([10, 11] : List Nat).getD k 0))) :=
  ⟨⟨by decide, by decide, by decide, by decide, by decide, by decide⟩,
   replicate_success_fidelity (fun _ => List.replicate 200 7)
     (Mbuf.mk 300 2 3 [MbufSeg.mk 0 60, MbufSeg.mk 1 40]) [10, 11] []
     (by decide) (by decide) (by decide) (by decide) (by decide) (by decide)⟩

/-- Claim C8.  A mid-copy allocation failure makes
`dpdk_replicate_packet_mb` free exactly the segments allocated so far and
return NULL; in `dpdk_interface_tx` the failed packet alone is excluded
from ring insertion, REPL_FAIL is incremented by exactly 1 for it, its
buffer index is queued on the recycle list freed at the end of the call,
and every sibling packet's outcome is the same per-packet function of that
sibling alone. -/
theorem replication_failure_isolated
    (st : Store) (b : Mbuf) (ids : List Nat) (rest : List (Option Nat))
    (hmid : ids.length < b.nb_segs) (hchain : ids.length < b.segs.length)
    (RING : Nat) (fc : Bool) (prim : Nat → Nat → Nat → Int) (h t : Nat)
    (pre post : List (TxPkt × Bool)) (p : TxPkt)
    (hclone : p.clone_count ≠ 0)
    (hcap : h - t + (pre ++ (p, false) :: post).length ≤ RING) :
    dpdk_replicate_packet_mb st (ids.map some ++ none :: rest) b
      = (none, ids, ids)
    ∧ processBatch (pre ++ (p, false) :: post)
      = processBatch pre ++ processPkt p false :: processBatch post
    ∧ (processPkt p false).appended = false
    ∧ (processPkt p false).flags_repl_fail = true
    ∧ (processPkt p false).repl_fail_inc = 1
    ∧ (processPkt p false).recycled = true
    ∧ (dpdk_interface_tx RING fc prim h t
        (pre ++ (p, false) :: post)).repl_fail_inc
      = ((processBatch pre).map (·.repl_fail_inc)).sum + 1
        + ((processBatch post).map (·.repl_fail_inc)).sum
    ∧ (dpdk_interface_tx RING fc prim h t
        (pre ++ (p, false) :: post)).recycle_freed
      = pre.filterMap (fun x =>
          if (processPkt x.1 x.2).recycled then some x.1.bi else none)
        ++ p.bi :: post.filterMap (fun x =>
          if (processPkt x.1 x.2).recycled then some x.1.bi else none) := by
  have hno : ¬ (h - t + (pre ++ (p, false) :: post).length > RING) := by
    omega
  have hrecyc : (processPkt p false).recycled = true := by
    simp [processPkt, hclone]
  have hinc : (processPkt p false).repl_fail_inc = 1 := by
    simp [processPkt, hclone]
  have happ : (processPkt p false).appended = false := by
    simp [processPkt, hclone]
  have hflag : (processPkt p false).flags_repl_fail = true := by
    simp [processPkt, hclone]
  refine ⟨?_, ?_, happ, hflag, hinc, hrecyc, ?_, ?_⟩
  · obtain ⟨st', heq⟩ := replGo_fail ids b.segs b.nb_segs rest st [] []
      hmid hchain
    simp only [dpdk_replicate_packet_mb, heq]
    simp
  · simp [processBatch]
  · simp only [dpdk_interface_tx, if_neg hno]
    split_ifs <;>
      simp [processBatch, List.map_append, List.sum_append, hinc] <;>
      omega
  · simp only [dpdk_interface_tx, if_neg hno]
    split_ifs <;>
      simp [List.filterMap_append, List.filterMap_cons, hrecyc]

/-- Witness for C8: the second of two allocations fails while copying a
two-segment packet; in a batch of two, only the cloned packet is dropped. -/
theorem replication_failure_isolated_witness :
    (([10] : List Nat).length < (Mbuf.mk 100 2 0 [MbufSeg.mk 0 50,
        MbufSeg.mk 1 60]).nb_segs
      ∧ ([10] : List Nat).length
          < (Mbuf.mk 100 2 0 [MbufSeg.mk 0 50, MbufSeg.mk 1 60]).segs.length
      ∧ pkClone.clone_count ≠ 0
      ∧ (0 : Nat) - 0 + ([(pkPlain, true)] ++ (pkClone, false) :: []).length
          ≤ 4)
    ∧ (dpdk_replicate_packet_mb (fun _ => [])
          (([10] : List Nat).map some ++ none :: [])
          (Mbuf.mk 100 2 0 [MbufSeg.mk 0 50, MbufSeg.mk 1 60])
        = (none, [10], [10])
      ∧ processBatch ([(pkPlain, true)] ++ (pkClone, false) :: [])
        = processBatch [(pkPlain, true)]
          ++ processPkt pkClone false :: processBatch []
      ∧ (processPkt pkClone false).appended = false
      ∧ (processPkt pkClone false).flags_repl_fail = true
      ∧ (processPkt pkClone false).repl_fail_inc = 1
      ∧ (processPkt pkClone false).recycled = true
      ∧ (dpdk_interface_tx 4 false primZero 0 0
          ([(pkPlain, true)] ++ (pkClone, false) :: [])).repl_fail_inc
        = ((processBatch [(pkPlain, true)]).map (·.repl_fail_inc)).sum + 1
          + ((processBatch ([] : List (TxPkt × Bool))).map
              (·.repl_fail_inc)).sum
      ∧ (dpdk_interface_tx 4 false primZero 0 0
          ([(pkPlain, true)] ++ (pkClone, false) :: [])).recycle_freed
        = ([(pkPlain, true)] : List (TxPkt × Bool)).filterMap (fun x =>
            if (processPkt x.1 x.2).recycled then some x.1.bi else none)
          ++ pkClone.bi :: ([] : List (TxPkt × Bool)).filterMap (fun x =>
            if (processPkt x.1 x.2).recycled then some x.1.bi else none)) :=
  ⟨⟨by decide, by decide, by decide, by decide⟩,
   replication_failure_isolated (fun _ => [])
     (Mbuf.mk 100 2 0 [MbufSeg.mk 0 50, MbufSeg.mk 1 60]) [10] []
     (by decide) (by decide) 4 false primZero 0 0 [(pkPlain, true)] []
     pkClone (by decide) (by decide)⟩
